import Mathlib

/-!
Shallow embedding of the Tetris core of `src/src/js/tetris.ts` (classes
`Game` and `Tet`), together with theorems settling the frozen claims about
its specification.  Shape matrices are lists of lists of naturals (cell
value 0 = empty, nonzero = occupied, exactly as in the source where every
catalog cell is 0 or 1); board coordinates are integers, with the board
spanning rows `[0,16)` and columns `[0,10)`.
-/

namespace Electris

/-- Shape matrix: jagged list of rows of cell values (`number[][]` in the source). -/
abbrev Shape := List (List Nat)

/-- A (row, col) position on the board, as in `Tet.topLeft`. -/
structure Pos where
  row : Int
  col : Int
deriving DecidableEq, Repr

/-- The `TetRep` interface of the source: a shape together with its `topLeft`. -/
structure TetRep where
  shape : Shape
  topLeft : Pos
deriving DecidableEq, Repr

/-- A `Tet` object: the fields mutated by the source's movement and rotation
methods.  `pivotMax` is not stored since the source always (re)computes it
from `type` inside `getShapeMatrix`. -/
structure TetPiece where
  type : Int
  rotation : Nat
  pivot : Nat
  topLeft : Pos
  shape : Shape
  perim : List (List Int)
deriving DecidableEq, Repr

/-- Embeds `Game.BOARD_ROW_NUM`. -/
def BOARD_ROW_NUM : Int := 16

/-- Embeds `Game.BOARD_COL_NUM`. -/
def BOARD_COL_NUM : Int := 10

/-- The `matrixMatrix` table of `Tet.getShapeMatrix`: base shapes of the 7
piece types (I, J, L, O, S, T, Z) across their stored rotation states.
Trailing zeros are absent in the source rows and hence absent here. -/
def matrixMatrix : List (List Shape) :=
  [ [ [[1,1,1,1]],       [[1],[1],[1],[1]] ],
    [ [[1,1,1],[0,0,1]], [[0,1],[0,1],[1,1]], [[1],[1,1,1]], [[1,1],[1],[1]] ],
    [ [[1,1,1],[1]],     [[1,1],[0,1],[0,1]], [[0,0,1],[1,1,1]], [[1],[1],[1,1]] ],
    [ [[1,1],[1,1]] ],
    [ [[0,1,1],[1,1]],   [[1],[1,1],[0,1]] ],
    [ [[1,1,1],[0,1]],   [[0,1],[1,1],[0,1]], [[0,1],[1,1,1]], [[1],[1,1],[1]] ],
    [ [[1,1],[0,1,1]],   [[0,1],[1,1],[1]] ] ]

/-- Embeds `Tet.getShapeMatrix`: select the stored shape for a type and rotation.
One stored shape ignores rotation, two use `rotation % 2`, four use
`rotation` directly; anything else yields the empty shape. -/
def getShapeMatrix (type : Int) (rotation : Nat) : Shape :=
  let m := if 0 ≤ type then (matrixMatrix.getD type.toNat []) else []
  match m with
  | [s] => s
  | [s0, s1] => if rotation % 2 = 0 then s0 else s1
  | [s0, s1, s2, s3] => [s0, s1, s2, s3].getD rotation []
  | _ => []

/-- The `pivotMax` assignment of `Tet.getShapeMatrix`: 3 for I (type 0),
0 for O (type 3), 1 for every other type. -/
def pivotMaxOf (type : Int) : Nat :=
  if type = 0 then 3 else if type = 3 then 0 else 1

/-- The `periMatrix` table of `Tet.getPerim`: every known shape paired with
its perimeter polygon, in source order (fragments first, then the 7 piece
types across their rotation states). -/
def periMatrix : List (Shape × List (List Int)) :=
  [ ( [[1]],               [[0,0],[0,1],[1,1],[1,0]] ),
    ( [[1,1]],             [[0,0],[0,1],[2,1],[2,0]] ),
    ( [[1],[1]],           [[0,0],[0,2],[1,2],[1,0]] ),
    ( [[1,1,1]],           [[0,0],[0,1],[3,1],[3,0]] ),
    ( [[1],[1],[1]],       [[0,0],[0,3],[1,3],[1,0]] ),
    ( [[1,1],[0,1]],       [[0,0],[0,1],[1,1],[1,2],[2,2],[2,0]] ),
    ( [[0,1],[1,1]],       [[1,0],[1,1],[0,1],[0,2],[2,2],[2,0]] ),
    ( [[1],[1,1]],         [[0,0],[0,2],[2,2],[2,1],[1,1],[1,0]] ),
    ( [[1,1],[1]],         [[0,0],[0,2],[1,2],[1,1],[2,1],[2,0]] ),
    ( [[1,1,1,1]],         [[0,0],[0,1],[4,1],[4,0]] ),
    ( [[1],[1],[1],[1]],   [[0,0],[0,4],[1,4],[1,0]] ),
    ( [[1,1,1],[0,0,1]],   [[0,0],[0,1],[2,1],[2,2],[3,2],[3,0]] ),
    ( [[0,1],[0,1],[1,1]], [[1,0],[1,2],[0,2],[0,3],[2,3],[2,0]] ),
    ( [[1],[1,1,1]],       [[0,0],[0,2],[3,2],[3,1],[1,1],[1,0]] ),
    ( [[1,1],[1],[1]],     [[0,0],[0,3],[1,3],[1,1],[2,1],[2,0]] ),
    ( [[1,1,1],[1]],       [[0,0],[0,2],[1,2],[1,1],[3,1],[3,0]] ),
    ( [[1,1],[0,1],[0,1]], [[0,0],[0,1],[1,1],[1,3],[2,3],[2,0]] ),
    ( [[0,0,1],[1,1,1]],   [[2,0],[2,1],[0,1],[0,2],[3,2],[3,0]] ),
    ( [[1],[1],[1,1]],     [[0,0],[0,3],[2,3],[2,2],[1,2],[1,0]] ),
    ( [[1,1],[1,1]],       [[0,0],[0,2],[2,2],[2,0]] ),
    ( [[0,1,1],[1,1]],     [[1,0],[1,1],[0,1],[0,2],[2,2],[2,1],[3,1],[3,0]] ),
    ( [[1],[1,1],[0,1]],   [[0,0],[0,2],[1,2],[1,3],[2,3],[2,1],[1,1],[1,0]] ),
    ( [[1,1,1],[0,1]],     [[0,0],[0,1],[1,1],[1,2],[2,2],[2,1],[3,1],[3,0]] ),
    ( [[0,1],[1,1],[0,1]], [[1,0],[1,1],[0,1],[0,2],[1,2],[1,3],[2,3],[2,0]] ),
    ( [[0,1],[1,1,1]],     [[1,0],[1,1],[0,1],[0,2],[3,2],[3,1],[2,1],[2,0]] ),
    ( [[1],[1,1],[1]],     [[0,0],[0,3],[1,3],[1,2],[2,2],[2,1],[1,1],[1,0]] ),
    ( [[1,1],[0,1,1]],     [[0,0],[0,1],[1,1],[1,2],[3,2],[3,1],[2,1],[2,0]] ),
    ( [[0,1],[1,1],[1]],   [[1,0],[1,1],[0,1],[0,3],[1,3],[1,2],[2,2],[2,0]] ) ]

/-- The per-row comparison of `Tet.getPerim`'s matching loop: for every
column index of the input row, the two rows must have equal length and
exactly equal cell values there. -/
def rowMatches (row crow : List Nat) : Bool :=
  (List.range row.length).all fun ci =>
    row.length == crow.length && row.getD ci 0 == crow.getD ci 0

/-- The matching test of `Tet.getPerim`: for every row index of the input
shape, the two shapes must have equal row counts and matching rows.  (Note
the loops run over the *input* shape's indices, so an empty input shape or
an empty input row imposes no constraint, exactly as in the source.) -/
def shapeMatches (shape cand : Shape) : Bool :=
  (List.range shape.length).all fun ri =>
    shape.length == cand.length && rowMatches (shape.getD ri []) (cand.getD ri [])

/-- Embeds `Tet.getPerim`: linear scan of `periMatrix`; the first matching entry's
perimeter is returned, the empty perimeter when no entry matches. -/
def getPerim (shape : Shape) : List (List Int) :=
  match periMatrix.find? (fun e => shapeMatches shape e.1) with
  | some e => e.2
  | none => []

/-- Embeds `Tet.setShape`: store a shape and its derived perimeter. -/
def setShapePiece (t : TetPiece) (s : Shape) : TetPiece :=
  { t with shape := s, perim := getPerim s }

/-- Matching as the specification describes it for `getPerim`: identical row
counts, identical row lengths, and cell agreement under 0/nonzero equality
(a differing nonzero color id still matches).  Used to compare the claimed
behaviour with the source's `shapeMatches`. -/
def zeroNonzeroMatches (shape cand : Shape) : Bool :=
  shape.length == cand.length &&
  (List.range shape.length).all fun ri =>
    (shape.getD ri []).length == (cand.getD ri []).length &&
    (List.range (shape.getD ri []).length).all fun ci =>
      (decide ((shape.getD ri []).getD ci 0 ≠ 0)) == (decide ((cand.getD ri []).getD ci 0 ≠ 0))

/-- Perimeter lookup as the specification describes it: first catalog entry
matching under `zeroNonzeroMatches`. -/
def zeroNonzeroPerim (shape : Shape) : List (List Int) :=
  match periMatrix.find? (fun e => zeroNonzeroMatches shape e.1) with
  | some e => e.2
  | none => []

/-- Perimeter lookup by exact structural equality with a catalog entry;
for nonempty shapes with nonempty rows this coincides with `getPerim`. -/
def exactMatchPerim (shape : Shape) : List (List Int) :=
  match periMatrix.find? (fun e => e.1 == shape) with
  | some e => e.2
  | none => []

/-- Embeds the type-selection expression of the `Tet` constructor:
`(type && type >= -1 && type < 7) ? type : Math.floor(Math.random() * 7)`.
A requested type of 0 is falsy in JavaScript, so the guard fails and the
random draw `rand` is used instead. -/
def tetConstructorType (type : Option Int) (rand : Int) : Int :=
  match type with
  | none => rand
  | some t => if t ≠ 0 ∧ -1 ≤ t ∧ t < 7 then t else rand

/-- Embeds the first-spawn branch of `Game.createTet`: a first draw of 4 or 6
(S or Z) is decremented, and the result is passed to the `Tet` constructor,
whose own type guard may replace it by the constructor's fresh draw. -/
def createTetFirstType (draw : Int) (ctorDraw : Int) : Int :=
  let t := if draw = 4 ∨ draw = 6 then draw - 1 else draw
  tetConstructorType (some t) ctorDraw

/-- Auxiliary: `List.find?` only depends on the predicate's values on the list. -/
theorem findPointwise {α : Type} (p q : α → Bool) :
    ∀ l : List α, (∀ x ∈ l, p x = q x) → l.find? p = l.find? q
  | [], _ => rfl
  | a :: l, h => by
    have ha : p a = q a := h a (List.mem_cons_self a l)
    simp only [List.find?]
    rw [ha]
    cases q a
    · exact findPointwise p q l fun x hx => h x (List.mem_cons_of_mem a hx)
    · rfl

/-- Auxiliary: any row passes the `getPerim` row test against itself. -/
theorem rowMatches_self (row : List Nat) : rowMatches row row = true := by
  unfold rowMatches
  simp

/-- Auxiliary: on a nonempty row, the `getPerim` row test is exact row equality. -/
theorem rowMatches_iff (row crow : List Nat) (h : row ≠ []) :
    rowMatches row crow = true ↔ row = crow := by
  constructor
  · intro H
    rw [rowMatches] at H
    simp only [List.all_eq_true, List.mem_range, Bool.and_eq_true, beq_iff_eq] at H
    have hlen : 0 < row.length := List.length_pos.mpr h
    have hl : row.length = crow.length := (H 0 hlen).1
    apply List.ext_getElem hl
    intro i h1 h2
    have hcell := (H i h1).2
    rwa [List.getD_eq_getElem row 0 h1, List.getD_eq_getElem crow 0 h2] at hcell
  · rintro rfl
    exact rowMatches_self row

/-- Auxiliary: on a nonempty shape with nonempty rows, the `getPerim`
matching test is exact structural equality with the catalog entry. -/
theorem shapeMatches_iff (shape cand : Shape) (h1 : shape ≠ [])
    (h2 : ∀ r ∈ shape, r ≠ []) :
    shapeMatches shape cand = true ↔ shape = cand := by
  constructor
  · intro H
    rw [shapeMatches] at H
    simp only [List.all_eq_true, List.mem_range, Bool.and_eq_true, beq_iff_eq] at H
    have hlen : 0 < shape.length := List.length_pos.mpr h1
    have hl : shape.length = cand.length := (H 0 hlen).1
    apply List.ext_getElem hl
    intro i hi hi2
    have hrow := (H i hi).2
    rw [List.getD_eq_getElem shape [] hi, List.getD_eq_getElem cand [] hi2] at hrow
    exact (rowMatches_iff _ _ (h2 _ (List.getElem_mem hi))).mp hrow
  · rintro rfl
    rw [shapeMatches]
    simp only [List.all_eq_true, List.mem_range, Bool.and_eq_true, beq_iff_eq]
    exact fun ri _ => ⟨trivial, rowMatches_self _⟩

/-- C3 counterexample: the claim says a cell holding a different nonzero
color id than the catalog's still matches (0/nonzero equality).  The shape
`[[2]]` agrees with the catalog entry `[[1]]` under that criterion, so the
claim predicts the perimeter of `[[1]]`; but the source compares cells with
`===`, so `getPerim [[2]]` matches nothing and returns the empty perimeter. -/
theorem c3_counterexample :
    zeroNonzeroMatches [[2]] [[1]] = true ∧
    zeroNonzeroPerim [[2]] = [[0,0],[0,1],[1,1],[1,0]] ∧
    getPerim [[2]] = [] := by
  refine ⟨by decide, by decide, by decide⟩

/-- C3 (amended): for every nonempty input shape all of whose rows are
nonempty, `getPerim` matches it against a catalog entry iff the shape equals
the entry exactly — identical row counts, identical row lengths, and exact
cell-by-cell integer equality (a differing nonzero color id breaks the
match); the first matching entry's perimeter is returned and the empty
perimeter is returned when no entry matches (`exactMatchPerim`). -/
theorem c3_exact_matching (shape cand : Shape) (h1 : shape ≠ [])
    (h2 : ∀ r ∈ shape, r ≠ []) :
    (shapeMatches shape cand = true ↔ shape = cand) ∧
    getPerim shape = exactMatchPerim shape := by
  refine ⟨shapeMatches_iff shape cand h1 h2, ?_⟩
  unfold getPerim exactMatchPerim
  have hfind : periMatrix.find? (fun e => shapeMatches shape e.1) =
      periMatrix.find? (fun e => e.1 == shape) := by
    apply findPointwise
    intro e _
    have hiff := shapeMatches_iff shape e.1 h1 h2
    cases hb : (e.1 == shape) with
    | true => exact hiff.mpr (beq_iff_eq.mp hb).symm
    | false =>
      cases hs : shapeMatches shape e.1 with
      | false => rfl
      | true =>
        exact absurd (beq_iff_eq.mpr (hiff.mp hs).symm) (by simp [hb])
  rw [hfind]

/-- C3 witness: the amended theorem applied to the horizontal I shape. -/
theorem c3_exact_matching_witness :
    (shapeMatches [[1,1,1,1]] [[1,1,1,1]] = true ↔ ([[1,1,1,1]] : Shape) = [[1,1,1,1]]) ∧
    getPerim [[1,1,1,1]] = exactMatchPerim [[1,1,1,1]] :=
  c3_exact_matching [[1,1,1,1]] [[1,1,1,1]] (by decide) (by decide)

/-- C5: `Game.createTet`'s comment says the first Tet is never an S or Z,
but when the first draw is 0 (the I piece) the decrement branch is skipped
and the `Tet` constructor's truthiness guard discards the falsy requested
type 0, redrawing uniformly from `[0..6]` — which can yield 4 (S) or 6 (Z).
Moreover a drawn 4 (S) is decremented to 3, which is the O piece, not L. -/
theorem c5_first_spawn_evaluation :
    createTetFirstType 0 4 = 4 ∧ createTetFirstType 0 6 = 6 ∧
    createTetFirstType 4 1 = 3 ∧ createTetFirstType 6 1 = 5 := by decide

/-- C10: the `Tet` constructor stores the requested type exactly when it is
in `[-1..6]` and nonzero; otherwise (including the falsy request 0) the
fresh random draw is stored, so requesting type 0 does not deterministically
produce an I piece. -/
theorem c10_constructor_type (t rand : Int) :
    ((-1 ≤ t ∧ t < 7 ∧ t ≠ 0) → tetConstructorType (some t) rand = t) ∧
    (¬(-1 ≤ t ∧ t < 7 ∧ t ≠ 0) → tetConstructorType (some t) rand = rand) ∧
    tetConstructorType (some 0) rand = rand ∧
    (∃ r : Int, 0 ≤ r ∧ r < 7 ∧ tetConstructorType (some 0) r ≠ 0) := by
  simp only [tetConstructorType]
  refine ⟨fun h => ?_, fun h => ?_, by norm_num, ⟨3, by norm_num, by norm_num, by norm_num⟩⟩
  · rw [if_pos ⟨h.2.2, h.1, h.2.1⟩]
  · rw [if_neg fun hc => h ⟨hc.2.1, hc.2.2, hc.1⟩]

/-- C10 witness: the theorem applied at the requested type 5 and draw 2. -/
theorem c10_constructor_type_witness :
    tetConstructorType (some 5) 2 = 5 :=
  (c10_constructor_type 5 2).1 (by norm_num)

/-- Embeds the score increment of `Tet.collided` for `n` cleared rows:
`(fRLen ** (1 + (fRLen - 1) * 0.1)) * 10000`, with JavaScript floating-point
arithmetic modelled over the reals and `**` as the real power. -/
noncomputable def rowClearScore (n : Nat) : Real :=
  ((n : Real) ^ ((1 : Real) + ((n : Real) - 1) * 0.1)) * 10000

/-- C6: a single-row clear scores exactly 10000, and clearing 2, 3 or 4 full
rows in one landing event scores strictly more than the same number of rows
cleared across separate single-row events. -/
theorem c6_simultaneous_clear_bonus :
    rowClearScore 1 = 10000 ∧
    rowClearScore 2 > 2 * rowClearScore 1 ∧
    rowClearScore 3 > 3 * rowClearScore 1 ∧
    rowClearScore 4 > 4 * rowClearScore 1 := by
  have key : ∀ n e : Real, 1 < n → 1 < e → n * 10000 < n ^ e * 10000 := by
    intro n e hn he
    have hlt : n ^ (1 : Real) < n ^ e := Real.rpow_lt_rpow_of_exponent_lt hn he
    rw [Real.rpow_one] at hlt
    exact mul_lt_mul_of_pos_right hlt (by norm_num)
  have h1 : rowClearScore 1 = 10000 := by
    unfold rowClearScore
    norm_num
  refine ⟨h1, ?_, ?_, ?_⟩ <;> rw [h1] <;> unfold rowClearScore <;> push_cast <;>
    exact key _ _ (by norm_num) (by norm_num)

/-- Embeds the insertion loop of `Game.checkHighScore`: walk down the stored
list and splice the current score in before the first entry it strictly
exceeds (at most one insertion, none when no entry is smaller). -/
def insertScore (s : Rat) : List Rat → List Rat
  | [] => []
  | h :: t => if h < s then s :: h :: t else h :: insertScore s t

/-- Embeds `Game.checkHighScore` with the `updateScore` flag set: insert the
score, then pop the last element if the list grew beyond its original
length. -/
def checkHighScore (s : Rat) (highScores : List Rat) : List Rat :=
  let inserted := insertScore s highScores
  if highScores.length < inserted.length then inserted.dropLast else inserted

/-- Auxiliary: insertion grows the list by zero or one element. -/
theorem insertScore_length (s : Rat) :
    ∀ hs : List Rat,
      (insertScore s hs).length = hs.length ∨
      (insertScore s hs).length = hs.length + 1
  | [] => Or.inl rfl
  | h :: t => by
    unfold insertScore
    by_cases hc : h < s
    · rw [if_pos hc]
      exact Or.inr rfl
    · rw [if_neg hc]
      rcases insertScore_length s t with hl | hl <;> simp [hl]

/-- Auxiliary: if the insertion did not grow the list, nothing was inserted. -/
theorem insertScore_eq_of_length (s : Rat) :
    ∀ hs : List Rat, (insertScore s hs).length = hs.length → insertScore s hs = hs
  | [], _ => rfl
  | h :: t, hl => by
    unfold insertScore at hl ⊢
    by_cases hc : h < s
    · rw [if_pos hc] at hl
      simp at hl
    · rw [if_neg hc] at hl ⊢
      simp only [List.length_cons, Nat.add_right_cancel_iff] at hl
      rw [insertScore_eq_of_length s t hl]

/-- Auxiliary: a score at most every stored entry is not inserted at all. -/
theorem insertScore_of_le (s : Rat) :
    ∀ hs : List Rat, (∀ x ∈ hs, s ≤ x) → insertScore s hs = hs
  | [], _ => rfl
  | h :: t, hle => by
    unfold insertScore
    rw [if_neg (not_lt.mpr (hle h (List.mem_cons_self h t)))]
    rw [insertScore_of_le s t fun x hx => hle x (List.mem_cons_of_mem h hx)]

/-- C7: for every stored high-score list of length 10 sorted descending and
every current score, `checkHighScore` returns a list of exactly length 10,
namely the bounded insertion (insert before the first strictly smaller
entry, then truncate back to 10); a score no greater than every tracked
entry — in particular one equal to the lowest — leaves the list unchanged,
so the list never grows beyond 10. -/
theorem c7_checkHighScore (hs : List Rat) (s : Rat) (hlen : hs.length = 10)
    (_hsort : hs.Sorted (· ≥ ·)) :
    (checkHighScore s hs).length = 10 ∧
    checkHighScore s hs = (insertScore s hs).take 10 ∧
    ((∀ x ∈ hs, s ≤ x) → checkHighScore s hs = hs) := by
  unfold checkHighScore
  rcases insertScore_length s hs with hl | hl
  · have heq : insertScore s hs = hs := insertScore_eq_of_length s hs hl
    rw [if_neg (by omega)]
    refine ⟨by rw [heq, hlen], ?_, fun _ => heq⟩
    rw [heq, ← hlen, List.take_length]
  · rw [if_pos (by omega)]
    refine ⟨?_, ?_, ?_⟩
    · rw [List.length_dropLast, hl, hlen]
    · rw [List.dropLast_eq_take, hl, hlen]
    · intro hle
      have heq : insertScore s hs = hs := insertScore_of_le s hs hle
      rw [heq] at hl
      omega

/-- C7 witness: the theorem applied to a concrete descending list of length
10 and a score equal to its lowest entry. -/
theorem c7_checkHighScore_witness :
    (checkHighScore 10 [100, 90, 80, 70, 60, 50, 40, 30, 20, 10]).length = 10 ∧
    checkHighScore 10 [100, 90, 80, 70, 60, 50, 40, 30, 20, 10] =
      (insertScore 10 [100, 90, 80, 70, 60, 50, 40, 30, 20, 10]).take 10 ∧
    ((∀ x ∈ ([100, 90, 80, 70, 60, 50, 40, 30, 20, 10] : List Rat), (10 : Rat) ≤ x) →
      checkHighScore 10 [100, 90, 80, 70, 60, 50, 40, 30, 20, 10] =
        [100, 90, 80, 70, 60, 50, 40, 30, 20, 10]) :=
  c7_checkHighScore [100, 90, 80, 70, 60, 50, 40, 30, 20, 10] 10 (by decide)
    (by decide)

/-- The loop guard of `Tet.cleanShape`'s column-stripping phase: some row's
first cell is strictly positive (`shape[row][0] > 0`; an empty row reads as
`undefined`, which fails the test, exactly like a zero). -/
def hasPosHead (shape : Shape) : Bool :=
  shape.any fun r => r.headD 0 ≠ 0

/-- The column-stripping `while (true)` loop of `Tet.cleanShape`, embedded
with explicit fuel: while no row starts with a positive cell, drop the first
cell of every row and move `topLeft.col` one column right.  The source loop
diverges when the guard never becomes true (e.g. on an all-zero shape);
running out of fuel returns `none` in that case. -/
def stripColsFuel : Nat → Shape → Int → Option (Shape × Int)
  | 0, shape, col => if hasPosHead shape then some (shape, col) else none
  | n + 1, shape, col =>
    if hasPosHead shape then some (shape, col)
    else stripColsFuel n (shape.map List.tail) (col + 1)

/-- The trailing-zero phase of `Tet.cleanShape`: remove the zeros at the end
of a row (stopping at the first cell that is not `=== 0`). -/
def stripTrailingZeros : List Nat → List Nat
  | [] => []
  | c :: t =>
    let t2 := stripTrailingZeros t
    if t2.isEmpty ∧ c = 0 then [] else c :: t2

/-- Fuel sufficient for the column-stripping loop whenever it terminates at
all: the total number of cells of the shape. -/
def shapeFuel (shape : Shape) : Nat :=
  (shape.map List.length).sum

/-- Embeds `Tet.cleanShape`: strip the all-zero leading columns (adjusting
`topLeft.col`), then strip each row's trailing zeros.  `none` models the
source's divergence on inputs whose column stripping never terminates. -/
def cleanShape (o : TetRep) : Option TetRep :=
  (stripColsFuel (shapeFuel o.shape) o.shape o.topLeft.col).map fun sc =>
    ⟨sc.1.map stripTrailingZeros, ⟨o.topLeft.row, sc.2⟩⟩

/-- Auxiliary: the column-stripping loop stops immediately, with any fuel,
when some row already starts with a positive cell. -/
theorem stripColsFuel_of_hasPosHead (n : Nat) (shape : Shape) (col : Int)
    (h : hasPosHead shape = true) :
    stripColsFuel n shape col = some (shape, col) := by
  cases n <;> simp [stripColsFuel, h]

/-- Auxiliary: a successful column strip ends with a positive leading cell. -/
theorem stripColsFuel_hasPosHead :
    ∀ (n : Nat) (shape : Shape) (col : Int) (s2 : Shape) (c2 : Int),
      stripColsFuel n shape col = some (s2, c2) → hasPosHead s2 = true
  | 0, shape, col, s2, c2 => by
    intro h
    by_cases hh : hasPosHead shape = true <;> simp [stripColsFuel, hh] at h
    rw [← h.1, hh]
  | n + 1, shape, col, s2, c2 => by
    intro h
    by_cases hh : hasPosHead shape = true <;> simp [stripColsFuel, hh] at h
    · rw [← h.1, hh]
    · exact stripColsFuel_hasPosHead n (shape.map List.tail) (col + 1) s2 c2 h

/-- Auxiliary: unfolding equation for `stripTrailingZeros` on a cons cell. -/
theorem stripTrailingZeros_cons (c : Nat) (t : List Nat) :
    stripTrailingZeros (c :: t) =
      if (stripTrailingZeros t).isEmpty ∧ c = 0 then []
      else c :: stripTrailingZeros t := rfl

/-- Auxiliary: stripping trailing zeros is idempotent. -/
theorem stripTrailingZeros_idem :
    ∀ r : List Nat, stripTrailingZeros (stripTrailingZeros r) = stripTrailingZeros r
  | [] => rfl
  | c :: t => by
    by_cases hc : (stripTrailingZeros t).isEmpty = true ∧ c = 0
    · rw [stripTrailingZeros_cons, if_pos hc]
      rfl
    · rw [stripTrailingZeros_cons, if_neg hc, stripTrailingZeros_cons,
        stripTrailingZeros_idem t, if_neg hc]

/-- Auxiliary: a row with no trailing zero (its last cell, if any, is
nonzero) is unchanged by the trailing-zero strip. -/
theorem stripTrailingZeros_of_noTrail :
    ∀ r : List Nat, r.getLast? ≠ some 0 → stripTrailingZeros r = r
  | [], _ => rfl
  | c :: t, h => by
    cases t with
    | nil =>
      have hc : c ≠ 0 := by
        intro hc0
        exact h (by rw [hc0]; rfl)
      rw [stripTrailingZeros_cons, if_neg fun hand => hc hand.2]
      rfl
    | cons c2 t2 =>
      have hlast : (c2 :: t2).getLast? ≠ some 0 := by
        rwa [List.getLast?_cons_cons] at h
      have ht : stripTrailingZeros (c2 :: t2) = c2 :: t2 :=
        stripTrailingZeros_of_noTrail (c2 :: t2) hlast
      rw [stripTrailingZeros_cons, ht, if_neg (by simp)]

/-- Auxiliary: the trailing-zero strip preserves a positive leading cell. -/
theorem stripTrailingZeros_headD (r : List Nat) (h : r.headD 0 ≠ 0) :
    (stripTrailingZeros r).headD 0 ≠ 0 := by
  cases r with
  | nil => exact absurd rfl h
  | cons c t =>
    have hc : c ≠ 0 := h
    rw [stripTrailingZeros_cons, if_neg fun hand => hc hand.2]
    exact hc

/-- Auxiliary: stripping every row's trailing zeros preserves the loop guard. -/
theorem hasPosHead_map_strip (shape : Shape) (h : hasPosHead shape = true) :
    hasPosHead (shape.map stripTrailingZeros) = true := by
  unfold hasPosHead at h ⊢
  simp only [List.any_eq_true, List.mem_map] at h ⊢
  obtain ⟨r, hr, hpos⟩ := h
  exact ⟨stripTrailingZeros r, ⟨r, hr, rfl⟩, by
    simpa using stripTrailingZeros_headD r (by simpa using hpos)⟩

/-- C8: `cleanShape` is idempotent.  An already-normalized input — some row
starts with a positive cell (no strippable leading all-zero column) and no
row has a trailing zero — is returned unchanged with its `topLeft` intact;
and for *every* input on which `cleanShape` is defined (normalized or not),
applying `cleanShape` to its own output reproduces that output. -/
theorem c8_cleanShape_idempotent (o o2 : TetRep) :
    ((hasPosHead o.shape = true ∧ ∀ r ∈ o.shape, r.getLast? ≠ some 0) →
      cleanShape o = some o) ∧
    (cleanShape o = some o2 → cleanShape o2 = some o2) := by
  constructor
  · intro hnorm
    unfold cleanShape
    rw [stripColsFuel_of_hasPosHead _ _ _ hnorm.1]
    have hmap : o.shape.map stripTrailingZeros = o.shape := by
      conv_rhs => rw [← List.map_id o.shape]
      exact List.map_congr_left fun r hr => stripTrailingZeros_of_noTrail r (hnorm.2 r hr)
    simp only [Option.map_some', hmap]
  · intro h
    unfold cleanShape at h ⊢
    rcases hsc : stripColsFuel (shapeFuel o.shape) o.shape o.topLeft.col with _ | sc
    · rw [hsc] at h
      simp at h
    · rw [hsc] at h
      simp only [Option.map_some', Option.some.injEq] at h
      have hpos : hasPosHead sc.1 = true :=
        stripColsFuel_hasPosHead _ _ _ sc.1 sc.2 hsc
      have hshape : o2.shape = sc.1.map stripTrailingZeros := by
        rw [← h]
      have hpos2 : hasPosHead o2.shape = true := by
        rw [hshape]
        exact hasPosHead_map_strip sc.1 hpos
      rw [stripColsFuel_of_hasPosHead _ _ _ hpos2]
      have hmap : o2.shape.map stripTrailingZeros = o2.shape := by
        rw [hshape, List.map_map]
        exact List.map_congr_left fun r _ => stripTrailingZeros_idem r
      simp only [Option.map_some', hmap]

/-- C8 witness: the first conjunct applied to a normalized two-row fragment,
and the idempotence conjunct applied to a defined but unnormalized input
(`[[0,1]]` with a strippable leading zero column, whose `cleanShape` output
is `[[1]]` at the shifted column). -/
theorem c8_cleanShape_idempotent_witness :
    cleanShape ⟨[[1, 1], [1]], ⟨3, 2⟩⟩ = some ⟨[[1, 1], [1]], ⟨3, 2⟩⟩ ∧
    cleanShape ⟨[[1]], ⟨0, 1⟩⟩ = some ⟨[[1]], ⟨0, 1⟩⟩ :=
  ⟨(c8_cleanShape_idempotent ⟨[[1, 1], [1]], ⟨3, 2⟩⟩ ⟨[[1, 1], [1]], ⟨3, 2⟩⟩).1
      (by decide),
   (c8_cleanShape_idempotent ⟨[[0, 1]], ⟨0, 0⟩⟩ ⟨[[1]], ⟨0, 1⟩⟩).2 (by decide)⟩

/-- Embeds `Tet.arrayIsAllZeros`: true iff no cell of the row is positive. -/
def arrayIsAllZeros (arr : List Nat) : Bool :=
  arr.all fun c => c = 0

/-- Board cells covered by one shape row whose first cell sits at board
position `(r, c)`: the positions of its nonzero cells. -/
def rowCells (r c : Int) : List Nat → Set (Int × Int)
  | [] => ∅
  | v :: t => (if v ≠ 0 then {(r, c)} else ∅) ∪ rowCells r (c + 1) t

/-- Board cells covered by a shape whose top-left corner sits at `(r, c)`. -/
def shapeCells (r c : Int) : Shape → Set (Int × Int)
  | [] => ∅
  | row :: rest => rowCells r c row ∪ shapeCells (r + 1) c rest

/-- Occupied board cells of a `TetRep` (its `topLeft` plus the in-shape
offset of each nonzero cell). -/
def cells (t : TetRep) : Set (Int × Int) :=
  shapeCells t.topLeft.row t.topLeft.col t.shape

/-- Union of the occupied board cells of a list of `TetRep`s. -/
def cellsList : List TetRep → Set (Int × Int)
  | [] => ∅
  | t :: ts => cells t ∪ cellsList ts

/-- The fragment-run scan of `Tet.updateTet`: walk the shape's rows; rows
that are not all zero extend the current run (recording its start row when
it opens); an all-zero row closes the current run onto the queue.  `cur`
holds the start row and accumulated rows of the open run. -/
def runsAux (col : Int) : Int → Option (Int × Shape) → Shape → List TetRep
  | _, none, [] => []
  | _, some st, [] => [⟨st.2, ⟨st.1, col⟩⟩]
  | curRow, cur, row :: rest =>
    if arrayIsAllZeros row then
      match cur with
      | none => runsAux col (curRow + 1) none rest
      | some st => ⟨st.2, ⟨st.1, col⟩⟩ :: runsAux col (curRow + 1) none rest
    else
      match cur with
      | none => runsAux col (curRow + 1) (some (curRow, [row])) rest
      | some st => runsAux col (curRow + 1) (some (st.1, st.2 ++ [row])) rest

/-- The queue `q` built by `Tet.updateTet` from a piece's shape and topLeft. -/
def tetRuns (t : TetRep) : List TetRep :=
  runsAux t.topLeft.col t.topLeft.row none t.shape

/-- Makes `cleanShape` total with the identity as fallback; the fallback is
unreachable on the runs produced by `tetRuns` (proved below). -/
def cleanShapeTotal (o : TetRep) : TetRep :=
  (cleanShape o).getD o

/-- Embeds `Tet.updateTet` at the shape/topLeft level: split the shape into
fragment runs and normalize each with `cleanShape` (the first entry keeps
the original piece's identity, the others become new sentinel pieces). -/
def updateTetFrags (t : TetRep) : List TetRep :=
  (tetRuns t).map cleanShapeTotal

/-- Auxiliary: an all-zero row covers no board cells. -/
theorem rowCells_allZero (row : List Nat) (h : arrayIsAllZeros row = true) :
    ∀ r c : Int, rowCells r c row = ∅ := by
  induction row with
  | nil => intro r c; rfl
  | cons v t ih =>
    intro r c
    simp only [arrayIsAllZeros, List.all_cons, Bool.and_eq_true, decide_eq_true_eq] at h
    have ht : arrayIsAllZeros t = true := by
      simp only [arrayIsAllZeros]
      exact h.2
    rw [rowCells, ih ht, if_neg (by simpa using h.1)]
    simp

/-- Auxiliary: cells of a concatenation of row blocks. -/
theorem shapeCells_append (s1 : Shape) :
    ∀ (r c : Int) (s2 : Shape),
      shapeCells r c (s1 ++ s2) =
        shapeCells r c s1 ∪ shapeCells (r + s1.length) c s2 := by
  induction s1 with
  | nil =>
    intro r c s2
    simp [shapeCells]
  | cons row rest ih =>
    intro r c s2
    rw [List.cons_append]
    simp only [shapeCells, List.length_cons]
    rw [ih (r + 1) c s2, Set.union_assoc]
    have harg : r + 1 + (rest.length : Int) = r + ((rest.length + 1 : Nat) : Int) := by
      push_cast
      ring
    rw [harg]

/-- Auxiliary: stripping a row's trailing zeros does not change its cells. -/
theorem rowCells_stripTrailingZeros :
    ∀ (row : List Nat) (r c : Int),
      rowCells r c (stripTrailingZeros row) = rowCells r c row
  | [], _, _ => rfl
  | v :: t, r, c => by
    have h2 : rowCells r c (v :: t) =
        (if v ≠ 0 then {(r, c)} else ∅) ∪ rowCells r (c + 1) t := rfl
    by_cases hc : (stripTrailingZeros t).isEmpty = true ∧ v = 0
    · rw [stripTrailingZeros_cons, if_pos hc]
      have ht : stripTrailingZeros t = [] := List.isEmpty_iff.mp hc.1
      have hteq : rowCells r (c + 1) t = ∅ := by
        rw [← rowCells_stripTrailingZeros t r (c + 1), ht]
        rfl
      rw [h2, hteq, if_neg (by simp [hc.2])]
      simp [rowCells]
    · rw [stripTrailingZeros_cons, if_neg hc]
      have h1 : rowCells r c (v :: stripTrailingZeros t) =
          (if v ≠ 0 then {(r, c)} else ∅) ∪ rowCells r (c + 1) (stripTrailingZeros t) := rfl
      rw [h1, h2, rowCells_stripTrailingZeros t r (c + 1)]

/-- Auxiliary: stripping every row's trailing zeros preserves cells. -/
theorem shapeCells_map_strip :
    ∀ (s : Shape) (r c : Int),
      shapeCells r c (s.map stripTrailingZeros) = shapeCells r c s
  | [], _, _ => rfl
  | row :: rest, r, c => by
    simp only [List.map_cons, shapeCells, rowCells_stripTrailingZeros,
      shapeCells_map_strip rest (r + 1) c]

/-- Auxiliary: when no row starts with a positive cell, dropping the first
cell of every row and moving one column right preserves cells. -/
theorem shapeCells_map_tail :
    ∀ (s : Shape) (r c : Int), hasPosHead s = false →
      shapeCells r (c + 1) (s.map List.tail) = shapeCells r c s
  | [], _, _, _ => rfl
  | row :: rest, r, c, h => by
    simp only [hasPosHead, List.any_cons, Bool.or_eq_false_iff] at h
    have hrest : hasPosHead rest = false := by
      simp only [hasPosHead]
      exact h.2
    simp only [List.map_cons, shapeCells, shapeCells_map_tail rest (r + 1) c hrest]
    congr 1
    cases row with
    | nil => rfl
    | cons v t =>
      have hv : v = 0 := by simpa using h.1
      rw [List.tail_cons, rowCells, if_neg (by simp [hv])]
      simp

/-- Auxiliary: a successful column strip preserves cells (relative to the
shifted `topLeft.col` it returns). -/
theorem stripColsFuel_cells :
    ∀ (n : Nat) (s : Shape) (c : Int) (s2 : Shape) (c2 : Int),
      stripColsFuel n s c = some (s2, c2) →
      ∀ r : Int, shapeCells r c2 s2 = shapeCells r c s
  | 0, s, c, s2, c2 => by
    intro h r
    by_cases hh : hasPosHead s = true <;> simp [stripColsFuel, hh] at h
    rw [← h.1, ← h.2]
  | n + 1, s, c, s2, c2 => by
    intro h r
    by_cases hh : hasPosHead s = true <;> simp [stripColsFuel, hh] at h
    · rw [← h.1, ← h.2]
    · rw [stripColsFuel_cells n (s.map List.tail) (c + 1) s2 c2 h r]
      exact shapeCells_map_tail s r c (by simpa using hh)

/-- Auxiliary: `cleanShape` preserves occupied board cells. -/
theorem cleanShape_cells (o o2 : TetRep) (h : cleanShape o = some o2) :
    cells o2 = cells o := by
  unfold cleanShape at h
  rcases hsc : stripColsFuel (shapeFuel o.shape) o.shape o.topLeft.col with _ | sc
  · rw [hsc] at h
    simp at h
  · rw [hsc] at h
    simp only [Option.map_some', Option.some.injEq] at h
    rw [← h]
    unfold cells
    simp only
    rw [shapeCells_map_strip]
    exact stripColsFuel_cells _ _ _ sc.1 sc.2 hsc o.topLeft.row

/-- Auxiliary: the totalized `cleanShape` preserves occupied board cells. -/
theorem cleanShapeTotal_cells (o : TetRep) : cells (cleanShapeTotal o) = cells o := by
  unfold cleanShapeTotal
  rcases hc : cleanShape o with _ | o2
  · rfl
  · exact cleanShape_cells o o2 hc

/-- Auxiliary: a cell-preserving map preserves the union of cells. -/
theorem cellsList_map (f : TetRep → TetRep) :
    ∀ l : List TetRep, (∀ t ∈ l, cells (f t) = cells t) →
      cellsList (l.map f) = cellsList l
  | [], _ => rfl
  | t :: ts, h => by
    simp only [List.map_cons, cellsList, h t (List.mem_cons_self t ts),
      cellsList_map f ts fun x hx => h x (List.mem_cons_of_mem t hx)]

/-- Cells of the open run carried by the `runsAux` scan. -/
def accCells (col : Int) : Option (Int × Shape) → Set (Int × Int)
  | none => ∅
  | some st => shapeCells st.1 col st.2

/-- Auxiliary: the cells of the fragment queue are the cells of the open run
plus the cells of the rows still to scan. -/
theorem runsAux_cells (col : Int) :
    ∀ (rest : Shape) (curRow : Int) (cur : Option (Int × Shape)),
      (∀ st, cur = some st → curRow = st.1 + (st.2.length : Int)) →
      cellsList (runsAux col curRow cur rest) =
        accCells col cur ∪ shapeCells curRow col rest := by
  intro rest
  induction rest with
  | nil =>
    intro curRow cur _hinv
    cases cur with
    | none => simp [runsAux, cellsList, accCells, shapeCells]
    | some st => simp [runsAux, cellsList, accCells, shapeCells, cells]
  | cons row rest ih =>
    intro curRow cur hinv
    by_cases hz : arrayIsAllZeros row = true
    · cases cur with
      | none =>
        simp only [runsAux]
        rw [if_pos hz, ih (curRow + 1) none (fun st h => by cases h)]
        simp only [shapeCells, rowCells_allZero row hz, accCells]
        simp
      | some st =>
        simp only [runsAux]
        rw [if_pos hz]
        simp only [cellsList]
        rw [ih (curRow + 1) none (fun st2 h => by cases h)]
        simp [shapeCells, rowCells_allZero row hz, accCells, cells, Set.union_assoc]
    · cases cur with
      | none =>
        simp only [runsAux]
        rw [if_neg hz, ih (curRow + 1) (some (curRow, [row]))
          (fun st2 h => by injection h with h2; subst h2; simp)]
        simp only [accCells, shapeCells]
        simp [Set.union_assoc]
      | some st =>
        simp only [runsAux]
        rw [if_neg hz, ih (curRow + 1) (some (st.1, st.2 ++ [row]))
          (fun st2 h => by
            injection h with h2
            subst h2
            have hc := hinv st rfl
            simp only [List.length_append, List.length_cons, List.length_nil]
            push_cast
            omega)]
        simp only [accCells]
        rw [shapeCells_append st.2 st.1 col [row], ← hinv st rfl]
        simp only [shapeCells]
        simp [Set.union_assoc]

/-- Auxiliary: the fragment queue of a piece covers exactly its cells. -/
theorem tetRuns_cells (t : TetRep) : cellsList (tetRuns t) = cells t := by
  unfold tetRuns
  rw [runsAux_cells t.topLeft.col t.shape t.topLeft.row none (fun st h => by cases h)]
  simp only [accCells]
  rw [Set.empty_union]
  rfl

/-- Auxiliary: the column strip succeeds when some row has a nonzero cell
within fuel reach. -/
theorem stripColsFuel_isSome :
    ∀ (n : Nat) (s : Shape) (c : Int),
      (∃ row ∈ s, ∃ j, j ≤ n ∧ ∃ v, row[j]? = some v ∧ v ≠ 0) →
      (stripColsFuel n s c).isSome = true
  | 0, s, c, ⟨row, hrow, j, hj, v, hv, hv0⟩ => by
    have hj0 : j = 0 := Nat.le_zero.mp hj
    subst hj0
    have hpos : hasPosHead s = true := by
      unfold hasPosHead
      simp only [List.any_eq_true]
      refine ⟨row, hrow, ?_⟩
      cases row with
      | nil => simp at hv
      | cons a t =>
        simp only [List.getElem?_cons_zero, Option.some.injEq] at hv
        subst hv
        simpa using hv0
    simp [stripColsFuel, hpos]
  | n + 1, s, c, ⟨row, hrow, j, hj, v, hv, hv0⟩ => by
    by_cases hpos : hasPosHead s = true
    · simp [stripColsFuel, hpos]
    · have hj1 : 1 ≤ j := by
        rcases Nat.eq_zero_or_pos j with rfl | h
        · exfalso
          cases row with
          | nil => simp at hv
          | cons a t =>
            simp only [List.getElem?_cons_zero, Option.some.injEq] at hv
            apply hpos
            unfold hasPosHead
            simp only [List.any_eq_true]
            exact ⟨a :: t, hrow, by simpa [hv] using hv0⟩
        · exact h
      simp only [stripColsFuel]
      rw [if_neg hpos]
      apply stripColsFuel_isSome n (s.map List.tail) (c + 1)
      refine ⟨row.tail, List.mem_map_of_mem List.tail hrow, j - 1, by omega, v, ?_, hv0⟩
      rw [List.getElem?_tail]
      have hjj : j - 1 + 1 = j := by omega
      rw [hjj]
      exact hv

/-- Auxiliary: every row's length is at most the shape's total cell count. -/
theorem length_le_shapeFuel (s : Shape) (row : List Nat) (h : row ∈ s) :
    row.length ≤ shapeFuel s :=
  List.le_sum_of_mem (List.mem_map_of_mem List.length h)

/-- Auxiliary: `cleanShape` is defined on any shape one of whose rows has a
positive cell (as every fragment run produced by `updateTet` does). -/
theorem cleanShape_isSome (o : TetRep) (hne : o.shape ≠ [])
    (hrows : ∀ row ∈ o.shape, arrayIsAllZeros row = false) :
    (cleanShape o).isSome = true := by
  unfold cleanShape
  rw [Option.isSome_map']
  obtain ⟨row, hrow⟩ := List.exists_mem_of_ne_nil o.shape hne
  have hnz := hrows row hrow
  have hcell : ∃ j : Nat, ∃ v : Nat, row[j]? = some v ∧ v ≠ 0 := by
    unfold arrayIsAllZeros at hnz
    rw [List.all_eq_false] at hnz
    obtain ⟨x, hx, hxne⟩ := hnz
    obtain ⟨j, hj⟩ := List.mem_iff_getElem?.mp hx
    exact ⟨j, x, hj, by simpa using hxne⟩
  obtain ⟨j, v, hv, hv0⟩ := hcell
  apply stripColsFuel_isSome
  refine ⟨row, hrow, j, ?_, v, hv, hv0⟩
  have hjlen : j < row.length := by
    rcases List.getElem?_eq_some_iff.mp hv with ⟨hlt, _⟩
    exact hlt
  have hle := length_le_shapeFuel o.shape row hrow
  omega

/-- Auxiliary: every fragment in the queue has a nonempty shape whose rows
are each not all zero. -/
theorem runsAux_runs (col : Int) :
    ∀ (rest : Shape) (curRow : Int) (cur : Option (Int × Shape)),
      (∀ st, cur = some st → st.2 ≠ [] ∧ ∀ row ∈ st.2, arrayIsAllZeros row = false) →
      ∀ rep ∈ runsAux col curRow cur rest,
        rep.shape ≠ [] ∧ ∀ row ∈ rep.shape, arrayIsAllZeros row = false := by
  intro rest
  induction rest with
  | nil =>
    intro curRow cur hcur rep hrep
    cases cur with
    | none => simp [runsAux] at hrep
    | some st =>
      simp only [runsAux, List.mem_singleton] at hrep
      subst hrep
      exact hcur st rfl
  | cons row rest ih =>
    intro curRow cur hcur rep hrep
    by_cases hz : arrayIsAllZeros row = true
    · cases cur with
      | none =>
        simp only [runsAux] at hrep
        rw [if_pos hz] at hrep
        exact ih (curRow + 1) none (fun st h => by cases h) rep hrep
      | some st =>
        simp only [runsAux] at hrep
        rw [if_pos hz] at hrep
        rcases List.mem_cons.mp hrep with rfl | hmem
        · exact hcur st rfl
        · exact ih (curRow + 1) none (fun st2 h => by cases h) rep hmem
    · cases cur with
      | none =>
        simp only [runsAux] at hrep
        rw [if_neg hz] at hrep
        refine ih (curRow + 1) (some (curRow, [row])) ?_ rep hrep
        intro st2 h
        injection h with h2
        subst h2
        refine ⟨by simp, ?_⟩
        intro r hr
        rcases List.mem_singleton.mp hr with rfl
        exact Bool.eq_false_iff.mpr hz
      | some st =>
        simp only [runsAux] at hrep
        rw [if_neg hz] at hrep
        refine ih (curRow + 1) (some (st.1, st.2 ++ [row])) ?_ rep hrep
        intro st2 h
        injection h with h2
        subst h2
        refine ⟨by simp, ?_⟩
        intro r hr
        rcases List.mem_append.mp hr with h1 | h1
        · exact (hcur st rfl).2 r h1
        · rcases List.mem_singleton.mp h1 with rfl
          exact Bool.eq_false_iff.mpr hz

/-- Auxiliary: an open run always produces at least one fragment. -/
theorem runsAux_ne_nil_some (col : Int) :
    ∀ (rest : Shape) (curRow : Int) (st : Int × Shape),
      runsAux col curRow (some st) rest ≠ [] := by
  intro rest
  induction rest with
  | nil =>
    intro curRow st
    simp [runsAux]
  | cons row rest ih =>
    intro curRow st
    by_cases hz : arrayIsAllZeros row = true
    · simp only [runsAux]
      rw [if_pos hz]
      simp
    · simp only [runsAux]
      rw [if_neg hz]
      exact ih (curRow + 1) (st.1, st.2 ++ [row])

/-- Auxiliary: a shape with some not-all-zero row yields a nonempty queue. -/
theorem runsAux_ne_nil_none (col : Int) :
    ∀ (rest : Shape) (curRow : Int),
      (∃ row, row ∈ rest ∧ arrayIsAllZeros row = false) →
      runsAux col curRow none rest ≠ [] := by
  intro rest
  induction rest with
  | nil =>
    rintro curRow ⟨row, h, _⟩
    simp at h
  | cons row rest ih =>
    rintro curRow ⟨row2, hmem, hz2⟩
    by_cases hz : arrayIsAllZeros row = true
    · simp only [runsAux]
      rw [if_pos hz]
      apply ih (curRow + 1)
      rcases List.mem_cons.mp hmem with rfl | h
      · rw [hz] at hz2
        cases hz2
      · exact ⟨row2, h, hz2⟩
    · simp only [runsAux]
      rw [if_neg hz]
      exact runsAux_ne_nil_some col rest (curRow + 1) (curRow, [row])

/-- C9: `updateTet` preserves board occupancy.  For every piece with at
least one occupied cell: the fragment queue is nonempty, `cleanShape` is
defined on every queue entry, and the union over all resulting fragments of
their occupied board cells (topLeft plus in-shape offset of each nonzero
cell) equals exactly the set of occupied board cells of the piece's shape
before `updateTet` — fragmentation and normalization never move, add, or
lose an occupied cell. -/
theorem c9_updateTet_cells (t : TetRep)
    (h : t.shape.any (fun row => !arrayIsAllZeros row) = true) :
    updateTetFrags t ≠ [] ∧
    (∀ rep ∈ tetRuns t, (cleanShape rep).isSome = true) ∧
    cellsList (updateTetFrags t) = cells t := by
  refine ⟨?_, ?_, ?_⟩
  · unfold updateTetFrags
    intro hmap
    rw [List.map_eq_nil_iff] at hmap
    have hne : tetRuns t ≠ [] := by
      unfold tetRuns
      apply runsAux_ne_nil_none
      simp only [List.any_eq_true, Bool.not_eq_true'] at h
      exact h
    exact hne hmap
  · intro rep hrep
    have hp := runsAux_runs t.topLeft.col t.shape t.topLeft.row none
      (fun st h2 => by cases h2) rep hrep
    exact cleanShape_isSome rep hp.1 hp.2
  · unfold updateTetFrags
    rw [cellsList_map cleanShapeTotal (tetRuns t) (fun rep _ => cleanShapeTotal_cells rep)]
    exact tetRuns_cells t

/-- C9 witness: the theorem applied to a piece whose middle row was cleared. -/
theorem c9_updateTet_cells_witness :
    updateTetFrags ⟨[[1, 1], [0, 0], [1]], ⟨4, 3⟩⟩ ≠ [] ∧
    (∀ rep ∈ tetRuns ⟨[[1, 1], [0, 0], [1]], ⟨4, 3⟩⟩, (cleanShape rep).isSome = true) ∧
    cellsList (updateTetFrags ⟨[[1, 1], [0, 0], [1]], ⟨4, 3⟩⟩) =
      cells ⟨[[1, 1], [0, 0], [1]], ⟨4, 3⟩⟩ :=
  c9_updateTet_cells ⟨[[1, 1], [0, 0], [1]], ⟨4, 3⟩⟩ (by decide)

/-- Cell-scan over one shape row (mirrors the source's inner `col` loop):
true iff some cell `v` at column offset `ci` satisfies `p ri ci v`. -/
def existsCellRow (p : Nat → Nat → Nat → Bool) (ri : Nat) : Nat → List Nat → Bool
  | _, [] => false
  | ci, v :: rest => p ri ci v || existsCellRow p ri (ci + 1) rest

/-- Cell-scan over a whole shape (the source's nested row/col loops). -/
def existsCell (p : Nat → Nat → Nat → Bool) : Nat → Shape → Bool
  | _, [] => false
  | ri, row :: rest => existsCellRow p ri 0 row || existsCell p (ri + 1) rest

/-- Does the piece occupy board cell `(r, c)`?  (Its shape has a nonzero
cell whose `topLeft`-offset position is `(r, c)`.) -/
def occupies (t : TetPiece) (r c : Int) : Bool :=
  existsCell (fun ri ci v =>
    decide (v ≠ 0 ∧ r = t.topLeft.row + ri ∧ c = t.topLeft.col + ci)) 0 t.shape

/-- The game state acted on by the step machine: the piece list `allTets`,
the index of the living piece (`currTet`), whether a settle phase after a
row clear is in progress, the anchor row of the piece whose landing started
it (used by the recursive `collided` scan), and the game-over flag. -/
structure GameState where
  tets : List TetPiece
  curr : Option Nat
  settling : Bool
  anchorRow : Int
  gameOver : Bool
deriving DecidableEq, Repr

/-- The piece stored at index `i` of `allTets`. -/
def tetAt (g : GameState) (i : Nat) : Option TetPiece := g.tets[i]?

/-- Worker for `landedOcc`, walking `allTets` with its index. -/
def landedOccAux (curr excl : Option Nat) (r c : Int) : Nat → List TetPiece → Bool
  | _, [] => false
  | i, t :: rest =>
    (!(curr == some i) && !(excl == some i) && occupies t r c) ||
      landedOccAux curr excl r c (i + 1) rest

/-- Embeds `Game.getLanded` as an occupancy predicate: board cell `(r, c)`
is landed iff some piece other than `currTet` and other than the optional
excluded piece occupies it. -/
def landedOcc (g : GameState) (excl : Option Nat) (r c : Int) : Bool :=
  landedOccAux g.curr excl r c 0 g.tets

/-- Embeds `Tet.doesTetCollideBot` for the piece `t` against the landed map
excluding `excl` (the source passes the piece itself, and `getLanded` always
also excludes `currTet`): true iff some occupied cell at the candidate
position is below row 16 or reads a nonzero landed entry.  A column outside
`[0,10)` reads `undefined !== 0` in the source and therefore collides. -/
def doesTetCollideBot (g : GameState) (excl : Option Nat) (t : TetPiece)
    (pot : Pos) : Bool :=
  existsCell (fun ri ci v =>
    v ≠ 0 &&
      (decide (16 ≤ pot.row + ri) ||
        decide (pot.col + ci < 0) || decide (10 ≤ pot.col + ci) ||
        landedOcc g excl (pot.row + ri) (pot.col + ci))) 0 t.shape

/-- The inner column loop of `Tet.doesTetCollideSide`: at the first occupied
cell that is beyond the left bound, beyond the right bound, or on a taken
cell of the landed map `landed` (tested in source order) return
`some pivot2`, where `pivot2` is the piece's pivot after the branch's
increment (the right-bound branch increments when `pivot < pivotMax` and the
rotation is even; the taken branch additionally requires `direction = 1`). -/
def sideScanRow (landed : Int → Int → Bool) (t : TetPiece)
    (direction : Option Nat) (r : Int) : Int → List Nat → Option Nat
  | _, [] => none
  | c, v :: rest =>
    if v ≠ 0 ∧ c < 0 then some t.pivot
    else if v ≠ 0 ∧ 10 ≤ c then
      some (if t.pivot < pivotMaxOf t.type ∧ t.rotation % 2 = 0 then t.pivot + 1
            else t.pivot)
    else if v ≠ 0 ∧ landed r c = true then
      some (if direction = some 1 ∧ t.pivot < pivotMaxOf t.type ∧ t.rotation % 2 = 0
            then t.pivot + 1 else t.pivot)
    else sideScanRow landed t direction r (c + 1) rest

/-- The row loop of `Tet.doesTetCollideSide`. -/
def sideScan (landed : Int → Int → Bool) (t : TetPiece) (direction : Option Nat) :
    Int → Int → Shape → Option Nat
  | _, _, [] => none
  | r, c, row :: rest =>
    match sideScanRow landed t direction r c row with
    | some p => some p
    | none => sideScan landed t direction (r + 1) c rest

/-- Embeds `Tet.doesTetCollideSide`: the Boolean collision result paired
with the piece's pivot after the call (the source mutates `this.pivot` in
place inside this query).  The landed map is `getLanded()` with no argument,
which excludes only `currTet` — when the tested piece is the living piece
(the only caller), its own cells are absent from the map. -/
def doesTetCollideSide (g : GameState) (t : TetPiece) (pot : Pos)
    (direction : Option Nat) : Bool × Nat :=
  match sideScan (fun r c => landedOcc g none r c) t direction pot.row pot.col t.shape with
  | some p => (true, p)
  | none => (false, t.pivot)

/-- The landed map as the specification's reading of C4 describes it for
side collisions: computed including the piece itself (no exclusions). -/
def landedOccAll (g : GameState) (r c : Int) : Bool :=
  landedOccAux none none r c 0 g.tets

/-- Side collision as claim C4 describes it: the same scan as
`doesTetCollideSide` but against the all-inclusive landed map. -/
def doesTetCollideSideSpec (g : GameState) (t : TetPiece) (pot : Pos)
    (direction : Option Nat) : Bool × Nat :=
  match sideScan (landedOccAll g) t direction pot.row pot.col t.shape with
  | some p => (true, p)
  | none => (false, t.pivot)

/-- The validation loop of `Tet.rotate`: some occupied cell of the candidate
shape, placed at the piece's *current* `topLeft`, is beyond the left bound,
beyond the right bound, below the board, or on a nonzero landed entry. -/
def rotateBlocked (landed : Int → Int → Bool) (t : TetPiece)
    (potShape : Shape) : Bool :=
  existsCell (fun ri ci v =>
    v ≠ 0 &&
      (decide (t.topLeft.col + ci < 0) || decide (10 ≤ t.topLeft.col + ci) ||
        decide (16 ≤ t.topLeft.row + ri) ||
        landed (t.topLeft.row + ri) (t.topLeft.col + ci))) 0 potShape

/-- Embeds `Tet.rotate`: compute the next rotation index and its catalog
shape, validate every occupied candidate cell at the current `topLeft`, and
on success commit the new rotation, shape and perimeter, add the accrued
pivot to `topLeft.col` (without re-validating at the shifted position) and
reset the pivot to 0.  On failure every piece field is left unchanged. -/
def rotate (landed : Int → Int → Bool) (t : TetPiece) : Bool × TetPiece :=
  let potRot := if t.rotation < 3 then t.rotation + 1 else 0
  let potShape := getShapeMatrix t.type potRot
  if rotateBlocked landed t potShape then (false, t)
  else
    (true,
      { t with
        topLeft := ⟨t.topLeft.row, t.topLeft.col + t.pivot⟩
        pivot := 0
        rotation := potRot
        shape := potShape
        perim := getPerim potShape })

/-- Embeds the row-zeroing scan of `Tet.alterShape`: shape rows lying on a
full board row are overwritten with zeros (lengths preserved). -/
def zeroRowsAux (fullRs : List Int) : Int → Shape → Shape
  | _, [] => []
  | baseRow, row :: rest =>
    (if fullRs.contains baseRow then row.map (fun _ => 0) else row) ::
      zeroRowsAux fullRs (baseRow + 1) rest

/-- Embeds `Tet.alterShape`'s zeroing step on a whole piece. -/
def zeroRows (fullRs : List Int) (t : TetPiece) : TetPiece :=
  { t with shape := zeroRowsAux fullRs t.topLeft.row t.shape }

/-- Embeds `Tet.updateTet` for a piece: the first fragment keeps the piece's
identity (only `topLeft`, `shape` and `perim` change), later fragments are
the sentinel pieces (`new Tet(-1)`) carrying the parent's type tag; an empty
queue removes the piece.  Fragment `rotation`/`pivot` are left 0 (the source
leaves them undefined; fragments never rotate or side-collide). -/
def updateTetPiece (t : TetPiece) : List TetPiece :=
  match (tetRuns ⟨t.shape, t.topLeft⟩).map cleanShapeTotal with
  | [] => []
  | r0 :: rest =>
    setShapePiece { t with topLeft := r0.topLeft } r0.shape ::
      rest.map fun r => ⟨t.type, 0, 0, r.topLeft, r.shape, getPerim r.shape⟩

/-- Embeds `Game.alterShapes`: pieces within the affected row span are
zeroed and fragmented; fully cleared pieces are removed (the deferred
`tetsToRemove` index dance); extra fragments are appended at the end of
`allTets`, in processing order, exactly as the source pushes them. -/
def alterShapes (fullRs : List Int) (tets : List TetPiece) : List TetPiece :=
  let firstRow := fullRs.headD 0
  let lastRow := fullRs.getLastD 0
  let results := tets.map fun t =>
    if t.topLeft.row ≤ firstRow - 4 ∨ lastRow < t.topLeft.row then
      ([t], ([] : List TetPiece))
    else
      match updateTetPiece (zeroRows fullRs t) with
      | [] => ([], [])
      | h :: rest => ([h], rest)
  (results.map Prod.fst).flatten ++ (results.map Prod.snd).flatten

/-- Embeds the full-row scan of `Tet.collided`: board rows from `startRow`
to the bottom on which every column of the landed map (computed with
`currTet` already `null`) is occupied. -/
def fullRowsFrom (g : GameState) (startRow : Int) : List Int :=
  (List.range 16).filterMap fun r =>
    if startRow ≤ (r : Int) ∧
        (List.range 10).all (fun c => landedOcc g none (r : Int) (c : Int)) then
      some ((r : Int))
    else none

/-- Embeds the `Tet` constructor for a catalog type: rotation 0, pivot 0,
spawn position row 0 column 4, catalog shape and its perimeter. -/
def spawnTet (tp : Int) : TetPiece :=
  ⟨tp, 0, 0, ⟨0, 4⟩, getShapeMatrix tp 0, getPerim (getShapeMatrix tp 0)⟩

/-- Actions of the step machine generated by the game's operations: player
moves and rotation, gravity/landing via `moveDown`, spawning (with the type
the random draw produced), single-piece gravity inside the settle phase,
and the close of a settle phase at its fixed point. -/
inductive Action where
  | moveLeft
  | moveRight
  | rotateCW
  | moveDown
  | spawn (tp : Int)
  | gravity (i : Nat)
  | settleEnd
deriving DecidableEq, Repr

/-- Replaces the piece at index `i`. -/
def setTet (g : GameState) (i : Nat) (t : TetPiece) : GameState :=
  { g with tets := g.tets.set i t }

/-- Can some piece still drop one row (the settle loop's fixed-point test)? -/
def canAnyDrop (g : GameState) : Bool :=
  (List.range g.tets.length).any fun i =>
    match tetAt g i with
    | none => false
    | some t => !(doesTetCollideBot g (some i) t ⟨t.topLeft.row + 1, t.topLeft.col⟩)

/-- One atomic operation of the step machine.  Player operations require a
living piece, no settle phase in progress and the game not over (the
`canTetMove` gate); `moveDown` embeds `Tet.moveDown` including the landing
sequence (`collided`: clear `currTet`, scan full rows from the piece's row
and apply `alterShapes`, entering the settle phase when rows were cleared);
`spawn` embeds `Game.createTet` (game over on spawn collision); `gravity`
drops one non-living piece one row during the settle phase, as the settle
loop of `Tet.collided` does; `settleEnd` closes a settle phase at its fixed
point, re-running the full-row scan from the anchor row as the recursive
`collided` call does. -/
def step (g : GameState) : Action → GameState
  | Action.moveLeft =>
    match g.curr with
    | none => g
    | some i =>
      if g.settling ∨ g.gameOver then g
      else
        match tetAt g i with
        | none => g
        | some t =>
          let t1 := { t with pivot := 0 }
          let pot : Pos := ⟨t1.topLeft.row, t1.topLeft.col - 1⟩
          let res := doesTetCollideSide g t1 pot none
          let t2 := { t1 with pivot := res.2, topLeft := if res.1 then t1.topLeft else pot }
          setTet g i t2
  | Action.moveRight =>
    match g.curr with
    | none => g
    | some i =>
      if g.settling ∨ g.gameOver then g
      else
        match tetAt g i with
        | none => g
        | some t =>
          let pot : Pos := ⟨t.topLeft.row, t.topLeft.col + 1⟩
          let res := doesTetCollideSide g t pot (some 1)
          let t2 := { t with pivot := res.2, topLeft := if res.1 then t.topLeft else pot }
          setTet g i t2
  | Action.rotateCW =>
    match g.curr with
    | none => g
    | some i =>
      if g.settling ∨ g.gameOver then g
      else
        match tetAt g i with
        | none => g
        | some t => setTet g i (rotate (fun r c => landedOcc g none r c) t).2
  | Action.moveDown =>
    match g.curr with
    | none => g
    | some i =>
      if g.settling ∨ g.gameOver then g
      else
        match tetAt g i with
        | none => g
        | some t =>
          let pot : Pos := ⟨t.topLeft.row + 1, t.topLeft.col⟩
          if !(doesTetCollideBot g (some i) t pot) then
            setTet g i { t with topLeft := pot }
          else
            let g1 := { g with curr := none }
            let fr := fullRowsFrom g1 t.topLeft.row
            if fr.isEmpty then g1
            else
              { g1 with
                tets := alterShapes fr g1.tets
                settling := true
                anchorRow := t.topLeft.row }
  | Action.spawn tp =>
    match g.curr with
    | some _ => g
    | none =>
      if g.settling ∨ g.gameOver ∨ ¬(0 ≤ tp ∧ tp < 7) then g
      else
        let t := spawnTet tp
        if doesTetCollideBot g none t t.topLeft then { g with gameOver := true }
        else { g with tets := g.tets ++ [t], curr := some g.tets.length }
  | Action.gravity i =>
    if !g.settling then g
    else
      match g.curr with
      | some _ => g
      | none =>
        match tetAt g i with
        | none => g
        | some t =>
          let pot : Pos := ⟨t.topLeft.row + 1, t.topLeft.col⟩
          if doesTetCollideBot g (some i) t pot then g
          else setTet g i { t with topLeft := pot }
  | Action.settleEnd =>
    if !g.settling then g
    else if canAnyDrop g then g
    else
      let fr := fullRowsFrom g g.anchorRow
      if fr.isEmpty then { g with settling := false }
      else { g with tets := alterShapes fr g.tets }

/-- Runs a list of actions from a state. -/
def runGame (g : GameState) : List Action → GameState
  | [] => g
  | a :: rest => runGame (step g a) rest

/-- The initial game state: no pieces, no living piece. -/
def initGame : GameState := ⟨[], none, false, 0, false⟩

/-- Do two pieces overlap (share an occupied board cell)? -/
def sharesCell (a b : TetPiece) : Bool :=
  existsCell (fun ri ci v =>
    v ≠ 0 && occupies b (a.topLeft.row + ri) (a.topLeft.col + ci)) 0 a.shape

/-- Does some pair of distinct pieces of the list overlap? -/
def anyOverlap : List TetPiece → Bool
  | [] => false
  | t :: rest => rest.any (sharesCell t) || anyOverlap rest

/-- The concrete input refuting the landed-pieces invariant: two vertical I
pieces are stacked in column 9 (each spawned, rotated at the spawn column,
moved right to the wall and dropped); a third I piece descends to row 7,
accrues `pivot = 3` by pressing right against the wall, and rotates —
`rotate` validates the vertical candidate at column 6 but commits at column
`6 + pivot = 9`, inside the stack — then lands. -/
def c1Actions : List Action :=
  [Action.spawn 0, Action.rotateCW] ++ List.replicate 5 Action.moveRight ++
    List.replicate 13 Action.moveDown ++
  [Action.spawn 0, Action.rotateCW] ++ List.replicate 5 Action.moveRight ++
    List.replicate 9 Action.moveDown ++
  [Action.spawn 0] ++ List.replicate 2 Action.moveRight ++
    List.replicate 7 Action.moveDown ++ List.replicate 3 Action.moveRight ++
  [Action.rotateCW, Action.moveDown]

set_option maxRecDepth 8000 in
/-- C1: evaluation of the code at the failing input.  Running `c1Actions`
from the empty initial state ends with no living piece (so every piece in
`allTets` is landed) and with two landed pieces sharing occupied cells: two
vertical I pieces both cover `(8,9)`, `(9,9)` and `(10,9)`.  The slip is in
`Tet.rotate`, which validates the candidate shape at the current `topLeft`
but commits the piece at `topLeft.col + pivot` without re-validating, so a
wall-kicked rotation can be committed inside the landed stack; the spec's
landed-piece invariant (bounds and no overlap) is violated once the piece
lands there. -/
theorem c1_landed_overlap_reachable :
    (runGame initGame c1Actions).curr = none ∧
    anyOverlap (runGame initGame c1Actions).tets = true :=
  ⟨rfl, rfl⟩

/-- Auxiliary: reflection of the row cell-scan into an existential. -/
theorem existsCellRow_iff (p : Nat → Nat → Nat → Bool) (ri : Nat) :
    ∀ (row : List Nat) (c : Nat),
      existsCellRow p ri c row = true ↔
        ∃ j v, row[j]? = some v ∧ p ri (c + j) v = true := by
  intro row
  induction row with
  | nil =>
    intro c
    simp [existsCellRow]
  | cons v rest ih =>
    intro c
    simp only [existsCellRow, Bool.or_eq_true]
    constructor
    · rintro (h | h)
      · exact ⟨0, v, by simp, by simpa using h⟩
      · obtain ⟨j, v2, hj, hp⟩ := (ih (c + 1)).mp h
        refine ⟨j + 1, v2, by simpa using hj, ?_⟩
        have harith : c + (j + 1) = c + 1 + j := by omega
        rw [harith]
        exact hp
    · rintro ⟨j, v2, hj, hp⟩
      cases j with
      | zero =>
        left
        simp only [List.getElem?_cons_zero, Option.some.injEq] at hj
        cases hj
        simpa using hp
      | succ j =>
        right
        refine (ih (c + 1)).mpr ⟨j, v2, by simpa using hj, ?_⟩
        have harith : c + 1 + j = c + (j + 1) := by omega
        rw [harith]
        exact hp

/-- Auxiliary: reflection of the shape cell-scan into an existential. -/
theorem existsCell_iff (p : Nat → Nat → Nat → Bool) :
    ∀ (s : Shape) (k : Nat),
      existsCell p k s = true ↔
        ∃ i row, s[i]? = some row ∧
          ∃ j v, row[j]? = some v ∧ p (k + i) j v = true := by
  intro s
  induction s with
  | nil =>
    intro k
    simp [existsCell]
  | cons row rest ih =>
    intro k
    simp only [existsCell, Bool.or_eq_true]
    constructor
    · rintro (h | h)
      · obtain ⟨j, v, hj, hp⟩ := (existsCellRow_iff p k row 0).mp h
        exact ⟨0, row, by simp, j, v, hj, by simpa using hp⟩
      · obtain ⟨i, row2, hi, j, v, hj, hp⟩ := (ih (k + 1)).mp h
        refine ⟨i + 1, row2, by simpa using hi, j, v, hj, ?_⟩
        have harith : k + (i + 1) = k + 1 + i := by omega
        rw [harith]
        exact hp
    · rintro ⟨i, row2, hi, j, v, hj, hp⟩
      cases i with
      | zero =>
        left
        simp only [List.getElem?_cons_zero, Option.some.injEq] at hi
        cases hi
        apply (existsCellRow_iff p k row 0).mpr
        exact ⟨j, v, hj, by simpa using hp⟩
      | succ i =>
        right
        apply (ih (k + 1)).mpr
        refine ⟨i, row2, by simpa using hi, j, v, hj, ?_⟩
        have harith : k + 1 + i = k + (i + 1) := by omega
        rw [harith]
        exact hp

/-- The all-false landed map of an empty board. -/
def noLanded : Int → Int → Bool := fun _ _ => false

/-- C2: `Tet.rotate` either succeeds — setting `rotation` to
`(rotation+1) mod 4`, setting shape and perimeter to the catalog entry for
that rotation, adding the accrued pivot to `topLeft.col`, resetting the
pivot, and leaving `type` and `topLeft.row` unchanged — or it is rejected,
exactly when some occupied cell of the candidate shape at the *current*
`topLeft` is out of the left/right/bottom bounds or overlaps the landed map
(which excludes the living piece), in which case every piece field is
unchanged (no partial mutation). -/
theorem c2_rotate (landed : Int → Int → Bool) (t : TetPiece)
    (hrot : t.rotation < 4) :
    ((rotate landed t).1 = false → (rotate landed t).2 = t) ∧
    ((rotate landed t).1 = true →
      ((rotate landed t).2.rotation = (t.rotation + 1) % 4 ∧
       (rotate landed t).2.shape = getShapeMatrix t.type ((t.rotation + 1) % 4) ∧
       (rotate landed t).2.perim =
         getPerim (getShapeMatrix t.type ((t.rotation + 1) % 4)) ∧
       (rotate landed t).2.topLeft.row = t.topLeft.row ∧
       (rotate landed t).2.topLeft.col = t.topLeft.col + t.pivot ∧
       (rotate landed t).2.pivot = 0 ∧
       (rotate landed t).2.type = t.type)) ∧
    ((rotate landed t).1 = false ↔
      ∃ (ri : Nat) (row : List Nat),
        (getShapeMatrix t.type ((t.rotation + 1) % 4))[ri]? = some row ∧
        ∃ (ci v : Nat), row[ci]? = some v ∧ v ≠ 0 ∧
          (t.topLeft.col + (ci : Int) < 0 ∨ 10 ≤ t.topLeft.col + (ci : Int) ∨
           16 ≤ t.topLeft.row + (ri : Int) ∨
           landed (t.topLeft.row + (ri : Int)) (t.topLeft.col + (ci : Int)) = true)) := by
  have hmod : (if t.rotation < 3 then t.rotation + 1 else 0) = (t.rotation + 1) % 4 := by
    by_cases h : t.rotation < 3
    · rw [if_pos h]
      omega
    · rw [if_neg h]
      omega
  have hrw : rotate landed t =
      if rotateBlocked landed t (getShapeMatrix t.type ((t.rotation + 1) % 4)) then
        (false, t)
      else
        (true,
          { t with
            topLeft := ⟨t.topLeft.row, t.topLeft.col + t.pivot⟩
            pivot := 0
            rotation := (t.rotation + 1) % 4
            shape := getShapeMatrix t.type ((t.rotation + 1) % 4)
            perim := getPerim (getShapeMatrix t.type ((t.rotation + 1) % 4)) }) := by
    rw [rotate]
    rw [hmod]
  by_cases hb : rotateBlocked landed t (getShapeMatrix t.type ((t.rotation + 1) % 4)) = true
  · rw [hrw, if_pos hb]
    refine ⟨fun _ => rfl, fun h => by simp at h, ?_⟩
    simp only [true_iff]
    have := hb
    unfold rotateBlocked at this
    rw [existsCell_iff] at this
    obtain ⟨ri, row, hri, ci, v, hci, hp⟩ := this
    refine ⟨ri, row, hri, ci, v, hci, ?_⟩
    simp only [Nat.zero_add, Bool.and_eq_true, Bool.or_eq_true, decide_eq_true_eq,
      ne_eq, decide_not, Bool.not_eq_true'] at hp
    constructor
    · simpa using hp.1
    · tauto
  · rw [hrw, if_neg hb]
    refine ⟨fun h => by simp at h, fun _ => ⟨rfl, rfl, rfl, rfl, rfl, rfl, rfl⟩, ?_⟩
    refine iff_of_false (by simp) ?_
    intro hcontra
    apply hb
    unfold rotateBlocked
    rw [existsCell_iff]
    obtain ⟨ri, row, hri, ci, v, hci, hv0, hcond⟩ := hcontra
    refine ⟨ri, row, hri, ci, v, hci, ?_⟩
    simp only [Nat.zero_add, Bool.and_eq_true, Bool.or_eq_true, decide_eq_true_eq, ne_eq]
    exact ⟨by simpa using hv0, by tauto⟩

/-- C2 witness: the theorem applied to a freshly spawned I piece rotating on
an empty board. -/
theorem c2_rotate_witness :
    ((rotate noLanded (spawnTet 0)).1 = false →
      (rotate noLanded (spawnTet 0)).2 = spawnTet 0) ∧
    ((rotate noLanded (spawnTet 0)).1 = true →
      ((rotate noLanded (spawnTet 0)).2.rotation = ((spawnTet 0).rotation + 1) % 4 ∧
       (rotate noLanded (spawnTet 0)).2.shape =
         getShapeMatrix (spawnTet 0).type (((spawnTet 0).rotation + 1) % 4) ∧
       (rotate noLanded (spawnTet 0)).2.perim =
         getPerim (getShapeMatrix (spawnTet 0).type (((spawnTet 0).rotation + 1) % 4)) ∧
       (rotate noLanded (spawnTet 0)).2.topLeft.row = (spawnTet 0).topLeft.row ∧
       (rotate noLanded (spawnTet 0)).2.topLeft.col =
         (spawnTet 0).topLeft.col + (spawnTet 0).pivot ∧
       (rotate noLanded (spawnTet 0)).2.pivot = 0 ∧
       (rotate noLanded (spawnTet 0)).2.type = (spawnTet 0).type)) ∧
    ((rotate noLanded (spawnTet 0)).1 = false ↔
      ∃ (ri : Nat) (row : List Nat),
        (getShapeMatrix (spawnTet 0).type (((spawnTet 0).rotation + 1) % 4))[ri]? =
          some row ∧
        ∃ (ci v : Nat), row[ci]? = some v ∧ v ≠ 0 ∧
          ((spawnTet 0).topLeft.col + (ci : Int) < 0 ∨
           10 ≤ (spawnTet 0).topLeft.col + (ci : Int) ∨
           16 ≤ (spawnTet 0).topLeft.row + (ri : Int) ∨
           noLanded ((spawnTet 0).topLeft.row + (ri : Int))
             ((spawnTet 0).topLeft.col + (ci : Int)) = true)) :=
  c2_rotate noLanded (spawnTet 0) (by decide)

/-- Auxiliary: reflection of the landed-map worker into an existential over
piece indices. -/
theorem landedOccAux_iff (curr excl : Option Nat) (r c : Int) :
    ∀ (l : List TetPiece) (k : Nat),
      landedOccAux curr excl r c k l = true ↔
        ∃ (d : Nat) (t : TetPiece), l[d]? = some t ∧ curr ≠ some (k + d) ∧
          excl ≠ some (k + d) ∧ occupies t r c = true := by
  intro l
  induction l with
  | nil =>
    intro k
    simp [landedOccAux]
  | cons t rest ih =>
    intro k
    simp only [landedOccAux, Bool.or_eq_true, Bool.and_eq_true, Bool.not_eq_true',
      beq_eq_false_iff_ne, ne_eq]
    constructor
    · rintro (⟨⟨hc, he⟩, hocc⟩ | h)
      · exact ⟨0, t, by simp, by simpa using hc, by simpa using he, hocc⟩
      · obtain ⟨d, t2, hd, hc, he, hocc⟩ := (ih (k + 1)).mp h
        refine ⟨d + 1, t2, by simpa using hd, ?_, ?_, hocc⟩
        · have harith : k + (d + 1) = k + 1 + d := by omega
          rw [harith]
          exact hc
        · have harith : k + (d + 1) = k + 1 + d := by omega
          rw [harith]
          exact he
    · rintro ⟨d, t2, hd, hc, he, hocc⟩
      cases d with
      | zero =>
        left
        simp only [List.getElem?_cons_zero, Option.some.injEq] at hd
        cases hd
        exact ⟨⟨by simpa using hc, by simpa using he⟩, hocc⟩
      | succ d =>
        right
        apply (ih (k + 1)).mpr
        refine ⟨d, t2, by simpa using hd, ?_, ?_, hocc⟩
        · have harith : k + 1 + d = k + (d + 1) := by omega
          rw [harith]
          exact hc
        · have harith : k + 1 + d = k + (d + 1) := by omega
          rw [harith]
          exact he

/-- Auxiliary: reflection of the side-collision column loop. -/
theorem sideScanRow_isSome_iff (landed : Int → Int → Bool) (t : TetPiece)
    (direction : Option Nat) (r : Int) :
    ∀ (row : List Nat) (c : Int),
      (sideScanRow landed t direction r c row).isSome = true ↔
        ∃ (j v : Nat), row[j]? = some v ∧ v ≠ 0 ∧
          (c + (j : Int) < 0 ∨ 10 ≤ c + (j : Int) ∨ landed r (c + (j : Int)) = true) := by
  intro row
  induction row with
  | nil =>
    intro c
    simp [sideScanRow]
  | cons v rest ih =>
    intro c
    by_cases h1 : v ≠ 0 ∧ c < 0
    · simp only [sideScanRow]
      rw [if_pos h1]
      simp only [Option.isSome_some, true_iff]
      exact ⟨0, v, by simp, h1.1, Or.inl (by simpa using h1.2)⟩
    · by_cases h2 : v ≠ 0 ∧ 10 ≤ c
      · simp only [sideScanRow]
        rw [if_neg h1, if_pos h2]
        simp only [Option.isSome_some, true_iff]
        exact ⟨0, v, by simp, h2.1, Or.inr (Or.inl (by simpa using h2.2))⟩
      · by_cases h3 : v ≠ 0 ∧ landed r c = true
        · simp only [sideScanRow]
          rw [if_neg h1, if_neg h2, if_pos h3]
          simp only [Option.isSome_some, true_iff]
          exact ⟨0, v, by simp, h3.1, Or.inr (Or.inr (by simpa using h3.2))⟩
        · simp only [sideScanRow]
          rw [if_neg h1, if_neg h2, if_neg h3, ih (c + 1)]
          constructor
          · rintro ⟨j, v2, hj, hv0, hcond⟩
            refine ⟨j + 1, v2, by simpa using hj, hv0, ?_⟩
            have harith : c + ((j : Int) + 1) = c + 1 + (j : Int) := by ring
            push_cast
            rw [harith]
            exact hcond
          · rintro ⟨j, v2, hj, hv0, hcond⟩
            cases j with
            | zero =>
              exfalso
              simp only [List.getElem?_cons_zero, Option.some.injEq] at hj
              cases hj
              simp only [Int.natCast_zero, add_zero] at hcond
              rcases hcond with h | h | h
              · exact h1 ⟨hv0, h⟩
              · exact h2 ⟨hv0, h⟩
              · exact h3 ⟨hv0, h⟩
            | succ j =>
              refine ⟨j, v2, by simpa using hj, hv0, ?_⟩
              have harith : c + ((j : Int) + 1) = c + 1 + (j : Int) := by ring
              push_cast at hcond
              rw [harith] at hcond
              exact hcond

/-- Auxiliary: reflection of the side-collision row loop. -/
theorem sideScan_isSome_iff (landed : Int → Int → Bool) (t : TetPiece)
    (direction : Option Nat) :
    ∀ (s : Shape) (r c : Int),
      (sideScan landed t direction r c s).isSome = true ↔
        ∃ (i : Nat) (row : List Nat), s[i]? = some row ∧
          ∃ (j v : Nat), row[j]? = some v ∧ v ≠ 0 ∧
            (c + (j : Int) < 0 ∨ 10 ≤ c + (j : Int) ∨
              landed (r + (i : Int)) (c + (j : Int)) = true) := by
  intro s
  induction s with
  | nil =>
    intro r c
    simp [sideScan]
  | cons row rest ih =>
    intro r c
    simp only [sideScan]
    rcases hrow : sideScanRow landed t direction r c row with _ | p
    · simp only [Option.isSome_none]
      rw [ih (r + 1) c]
      constructor
      · rintro ⟨i, row2, hi, j, v, hj, hv0, hcond⟩
        refine ⟨i + 1, row2, by simpa using hi, j, v, hj, hv0, ?_⟩
        have harith : r + 1 + (i : Int) = r + ((i : Int) + 1) := by ring
        push_cast
        rw [← harith]
        exact hcond
      · rintro ⟨i, row2, hi, j, v, hj, hv0, hcond⟩
        cases i with
        | zero =>
          exfalso
          simp only [List.getElem?_cons_zero, Option.some.injEq] at hi
          cases hi
          have hsome : (sideScanRow landed t direction r c row).isSome = true := by
            rw [sideScanRow_isSome_iff]
            refine ⟨j, v, hj, hv0, ?_⟩
            simpa using hcond
          rw [hrow] at hsome
          simp at hsome
        | succ i =>
          refine ⟨i, row2, by simpa using hi, j, v, hj, hv0, ?_⟩
          have harith : r + ((i : Int) + 1) = r + 1 + (i : Int) := by ring
          push_cast at hcond
          rw [harith] at hcond
          exact hcond
    · simp only [Option.isSome_some, true_iff]
      have hsome : (sideScanRow landed t direction r c row).isSome = true := by
        rw [hrow]
        rfl
      rw [sideScanRow_isSome_iff] at hsome
      obtain ⟨j, v, hj, hv0, hcond⟩ := hsome
      exact ⟨0, row, by simp, j, v, hj, hv0, by simpa using hcond⟩

/-- C4 counterexample state: a single O piece resting at `(14,4)` which is
the living `currTet`. -/
def c4Game : GameState :=
  ⟨[{ spawnTet 3 with topLeft := ⟨14, 4⟩ }], some 0, false, 0, false⟩

/-- The living piece of `c4Game`. -/
def c4Piece : TetPiece := { spawnTet 3 with topLeft := ⟨14, 4⟩ }

/-- C4 counterexample: the claim says the side-collision test runs against a
landed map computed *including* the piece itself, so testing the living
piece at its own position would have to report a collision (its own occupied
cells are in the map).  The source's `getLanded()` excludes `currTet`, so
the code reports no collision, while the claim-described variant
(`doesTetCollideSideSpec`, same scan over the all-inclusive map) reports
one. -/
theorem c4_counterexample :
    (doesTetCollideSide c4Game c4Piece ⟨14, 4⟩ (some 1)).1 = false ∧
    (doesTetCollideSideSpec c4Game c4Piece ⟨14, 4⟩ (some 1)).1 = true :=
  ⟨rfl, rfl⟩

/-- C4 (amended): `doesTetCollideSide` tests occupancy against `getLanded()`
with no argument — the landed map excluding only the living `currTet`; since
the method is invoked on the living piece, the piece's own occupied cells
are absent from the map being tested.  The result is true iff some occupied
cell of the piece's shape at the candidate position exceeds the left bound,
exceeds the right bound, or overlaps an occupied cell of that map. -/
theorem c4_side_collision (g : GameState) (i : Nat) (t : TetPiece) (pot : Pos)
    (direction : Option Nat) (hcurr : g.curr = some i) :
    ((doesTetCollideSide g t pot direction).1 = true ↔
      ∃ (ri : Nat) (row : List Nat), t.shape[ri]? = some row ∧
        ∃ (ci v : Nat), row[ci]? = some v ∧ v ≠ 0 ∧
          (pot.col + (ci : Int) < 0 ∨ 10 ≤ pot.col + (ci : Int) ∨
            landedOcc g none (pot.row + (ri : Int)) (pot.col + (ci : Int)) = true)) ∧
    (∀ r c : Int, landedOcc g none r c = true →
      ∃ j : Nat, j ≠ i ∧ ∃ t2 : TetPiece, tetAt g j = some t2 ∧
        occupies t2 r c = true) := by
  constructor
  · have hmatch : (doesTetCollideSide g t pot direction).1 = true ↔
        (sideScan (fun r c => landedOcc g none r c) t direction
          pot.row pot.col t.shape).isSome = true := by
      unfold doesTetCollideSide
      rcases hs : sideScan (fun r c => landedOcc g none r c) t direction
          pot.row pot.col t.shape with _ | p
      · simp
      · simp
    rw [hmatch, sideScan_isSome_iff]
  · intro r c hocc
    unfold landedOcc at hocc
    rw [landedOccAux_iff] at hocc
    obtain ⟨d, t2, hd, hc, _, hocc2⟩ := hocc
    refine ⟨d, ?_, t2, hd, hocc2⟩
    intro hdi
    apply hc
    rw [hcurr, hdi]
    simp

/-- C4 witness: the amended theorem applied to the state `c4Game`. -/
theorem c4_side_collision_witness :
    ((doesTetCollideSide c4Game c4Piece ⟨14, 4⟩ (some 1)).1 = true ↔
      ∃ (ri : Nat) (row : List Nat), c4Piece.shape[ri]? = some row ∧
        ∃ (ci v : Nat), row[ci]? = some v ∧ v ≠ 0 ∧
          ((4 : Int) + (ci : Int) < 0 ∨ 10 ≤ (4 : Int) + (ci : Int) ∨
            landedOcc c4Game none ((14 : Int) + (ri : Int))
              ((4 : Int) + (ci : Int)) = true)) ∧
    (∀ r c : Int, landedOcc c4Game none r c = true →
      ∃ j : Nat, j ≠ 0 ∧ ∃ t2 : TetPiece, tetAt c4Game j = some t2 ∧
        occupies t2 r c = true) := by
  have h := c4_side_collision c4Game 0 c4Piece ⟨14, 4⟩ (some 1) rfl
  simpa using h

end Electris
